import Mathlib

/-!
Verification development for the Monday C3 PO extractor (`src/main.py`).

The pure extraction/normalization/classification core of the program is
shallowly embedded here.  Strings are processed as `List Char`
(`Chars`), with python's `str` operations (`strip`, `lower`, `split`,
`splitlines`, `replace`) and the regular expressions of the source
modelled character by character.  Regex models are either direct linear
translations (for the anchored, class-disjoint patterns) or instances of
a small backtracking matcher `mat` (for the subject grammars, which use
lazy groups); both follow Python `re` semantics: `re.match` is an
anchored prefix match, `re.search` scans start positions left to right,
greedy pieces prefer longer matches, lazy pieces prefer shorter ones.
ASCII inputs are assumed throughout (the vendor emails the program
handles are ASCII), so `\s`, `\d`, `str.lower` etc. are modelled at
ASCII level.
-/

set_option maxRecDepth 20000

namespace MondayC3

abbrev Chars := List Char

/-- Python whitespace (`\s`, `str.strip`) restricted to ASCII:
space, tab, newline, carriage return, vertical tab, form feed. -/
def pyIsSpace (c : Char) : Bool :=
  c = ' ' || c = '\t' || c = '\n' || c = '\r' || c.toNat = 11 || c.toNat = 12

/-- Python `\d` (ASCII digits 0-9). -/
def pyDigit (c : Char) : Bool := 48 ≤ c.toNat && c.toNat ≤ 57

/-- `[A-Z]` under `re.IGNORECASE` = ASCII letters. -/
def pyAlpha (c : Char) : Bool :=
  (65 ≤ c.toNat && c.toNat ≤ 90) || (97 ≤ c.toNat && c.toNat ≤ 122)

/-- Python `str.strip()`: drop leading and trailing whitespace. -/
def trimCL (s : Chars) : Chars :=
  ((s.dropWhile pyIsSpace).reverse.dropWhile pyIsSpace).reverse

/-- Python `str.lower()` (ASCII). -/
def lowerCL (s : Chars) : Chars := s.map Char.toLower

def ofChars (l : Chars) : String := String.mk l

def trimString (s : String) : String := ofChars (trimCL s.data)

/-- `pat` is a prefix of `s` (exact). -/
def isPre : Chars → Chars → Bool
  | [], _ => true
  | _ :: _, [] => false
  | p :: ps, c :: cs => p = c && isPre ps cs

/-- `pat` is a prefix of `s`, case-insensitively (ASCII `toLower`). -/
def isPreCI : Chars → Chars → Bool
  | [], _ => true
  | _ :: _, [] => false
  | p :: ps, c :: cs => p.toLower = c.toLower && isPreCI ps cs

/-- Python `pat in s` substring test (exact). -/
def hasSub (pat : Chars) : Chars → Bool
  | [] => pat.isEmpty
  | c :: cs => isPre pat (c :: cs) || hasSub pat cs

/-- Model of `re.match(r"^\d+$", s)` on trimmed cell values:
nonempty and all ASCII digits. -/
def isDigits (s : Chars) : Bool := !s.isEmpty && s.all pyDigit

def isDigitsS (s : String) : Bool := isDigits s.data

/-- Python `s.split(sep)` for a single-character separator. -/
def splitChar (sep : Char) : Chars → List Chars
  | [] => [[]]
  | c :: rest =>
    let r := splitChar sep rest
    if c = sep then [] :: r
    else
      match r with
      | [] => [[c]]
      | h :: t => (c :: h) :: t

/-- Helper for `splitlinesCL`: line accumulation, recognising
`\r\n`, `\r` and `\n` terminators, without a trailing empty line. -/
def splitlinesGo (acc : Chars) : Chars → List Chars
  | [] => [acc.reverse]
  | '\r' :: '\n' :: rest =>
    acc.reverse :: (if rest.isEmpty then [] else splitlinesGo [] rest)
  | '\r' :: rest =>
    acc.reverse :: (if rest.isEmpty then [] else splitlinesGo [] rest)
  | '\n' :: rest =>
    acc.reverse :: (if rest.isEmpty then [] else splitlinesGo [] rest)
  | c :: rest => splitlinesGo (c :: acc) rest

/-- Python `str.splitlines()` (common terminators `\n`, `\r`, `\r\n`). -/
def splitlinesCL (s : Chars) : List Chars :=
  if s.isEmpty then [] else splitlinesGo [] s

/-- Python `s.replace(pat, rep)`: replace all non-overlapping
occurrences left to right.  Fuelled; fuel `s.length` suffices since
every step consumes at least one input character. -/
def replAllGo (pat rep : Chars) : Nat → Chars → Chars
  | _, [] => []
  | 0, s => s
  | f + 1, c :: cs =>
    if !pat.isEmpty && isPre pat (c :: cs) then
      rep ++ replAllGo pat rep f ((c :: cs).drop pat.length)
    else c :: replAllGo pat rep f cs

def replAll (pat rep s : Chars) : Chars := replAllGo pat rep s.length s

/-- `re.sub(pat, rep, s, flags=re.IGNORECASE)` for a literal `pat`. -/
def replCIGo (pat rep : Chars) : Nat → Chars → Chars
  | _, [] => []
  | 0, s => s
  | f + 1, c :: cs =>
    if !pat.isEmpty && isPreCI pat (c :: cs) then
      rep ++ replCIGo pat rep f ((c :: cs).drop pat.length)
    else c :: replCIGo pat rep f cs

def replCI (pat rep s : Chars) : Chars := replCIGo pat rep s.length s

/-- `re.sub(r"\s+", " ", s)`: collapse whitespace runs to one space. -/
def collapseWsGo : Nat → Chars → Chars
  | _, [] => []
  | 0, s => s
  | f + 1, c :: cs =>
    if pyIsSpace c then ' ' :: collapseWsGo f (cs.dropWhile pyIsSpace)
    else c :: collapseWsGo f cs

/-- `re.sub(r"<[^>]+>", " ", s)`: each complete tag (a `<`, one or more
non-`>` characters, then `>`) becomes one space; a `<` that starts no
complete tag is kept literally, as in `re.sub`. -/
def stripTagsGo : Nat → Chars → Chars
  | _, [] => []
  | 0, s => s
  | f + 1, c :: cs =>
    if c = '<' then
      let mid := cs.takeWhile (fun x => x ≠ '>')
      match cs.drop mid.length with
      | '>' :: after =>
        if mid.isEmpty then '<' :: stripTagsGo f cs
        else ' ' :: stripTagsGo f after
      | _ => '<' :: stripTagsGo f cs
    else c :: stripTagsGo f cs

/-- `_strip_html` (src/main.py:139-147): remove tags, decode the four
entities case-insensitively, collapse whitespace, strip. -/
def stripHtmlCL (s : Chars) : Chars :=
  let a := stripTagsGo s.length s
  let b := replCI "&nbsp;".data [' '] a
  let c := replCI "&amp;".data ['&'] b
  let d := replCI "&lt;".data ['<'] c
  let e := replCI "&gt;".data ['>'] d
  trimCL (collapseWsGo e.length e)

def strip_html (s : String) : String := ofChars (stripHtmlCL s.data)

/-! ### HTML block finding

`re.findall(r"<TAG[^>]*>(.*?)</TAG>", s, re.DOTALL | re.IGNORECASE)` is
modelled by `findBlocks`: locate the opening literal (a list of
character predicates, to express classes like `t[hd]`), skip `[^>]*>`
(i.e. everything up to and including the first `>`), capture lazily up
to the first occurrence of the closing literal, and continue after it.
If no `>` or no closing literal remains, no further match is possible
at any later start position either, so the scan ends. -/

/-- Match a list of character predicates at the head of `s`; returns the
remainder on success. -/
def clsMatch : List (Char → Bool) → Chars → Option Chars
  | [], s => some s
  | _ :: _, [] => none
  | p :: ps, c :: cs => if p c then clsMatch ps cs else none

/-- Leftmost occurrence of the predicate literal: returns the index and
the remainder after the matched literal. -/
def findFrom (cls : List (Char → Bool)) : Chars → Option (Nat × Chars)
  | [] => (clsMatch cls []).map (fun r => (0, r))
  | c :: cs =>
    match clsMatch cls (c :: cs) with
    | some r => some (0, r)
    | none => (findFrom cls cs).map (fun p => (p.1 + 1, p.2))

def findBlocksGo (oc cc : List (Char → Bool)) : Nat → Chars → List Chars
  | 0, _ => []
  | f + 1, s =>
    match findFrom oc s with
    | none => []
    | some (_, r) =>
      let pre := r.takeWhile (fun c => c ≠ '>')
      match r.drop pre.length with
      | [] => []
      | _ :: b =>
        match findFrom cc b with
        | none => []
        | some (i, rem) => b.take i :: findBlocksGo oc cc f rem

def findBlocks (oc cc : List (Char → Bool)) (s : Chars) : List Chars :=
  findBlocksGo oc cc (s.length + 1) s

/-- Case-insensitive single-character class. -/
def ciEq (a : Char) : Char → Bool := fun c => c.toLower = a.toLower

def hdCls : Char → Bool := fun c => c.toLower = 'h' || c.toLower = 'd'

def tableOpenCls : List (Char → Bool) :=
  [ciEq '<', ciEq 't', ciEq 'a', ciEq 'b', ciEq 'l', ciEq 'e']
def tableCloseCls : List (Char → Bool) :=
  [ciEq '<', ciEq '/', ciEq 't', ciEq 'a', ciEq 'b', ciEq 'l', ciEq 'e', ciEq '>']
def trOpenCls : List (Char → Bool) := [ciEq '<', ciEq 't', ciEq 'r']
def trCloseCls : List (Char → Bool) := [ciEq '<', ciEq '/', ciEq 't', ciEq 'r', ciEq '>']
def cellOpenCls : List (Char → Bool) := [ciEq '<', ciEq 't', hdCls]
def cellCloseCls : List (Char → Bool) := [ciEq '<', ciEq '/', ciEq 't', hdCls, ciEq '>']

/-- Column-header phrases (src/main.py:66 and the literal at 169/198). -/
def PO_COLUMN_HEADER : Chars := "purchase order number".data
def PO_SHORT : Chars := "purchase order".data

/-- First column whose lowercased, trimmed header contains one of the
two phrases (src/main.py:166-171 and 195-200). -/
def headerIdx (cells : List Chars) : Option Nat :=
  (cells.map (fun h => trimCL (lowerCL h))).findIdx?
    (fun h => hasSub PO_COLUMN_HEADER h || hasSub PO_SHORT h)

/-- Rows of one `<table>` block: each `<tr>`, its `<th>`/`<td>` cells,
each cell HTML-stripped and trimmed (src/main.py:159-163). -/
def tableRows (block : Chars) : List (List Chars) :=
  (findBlocks trOpenCls trCloseCls block).map
    (fun row => (findBlocks cellOpenCls cellCloseCls row).map
      (fun c => trimCL (stripHtmlCL c)))

/-- Values of the selected column of one table block
(src/main.py:164-178): first row is the header; a data cell is emitted
when it exists at the column index, is nonempty and is all digits. -/
def tableVals (block : Chars) : List Chars :=
  match tableRows block with
  | [] => []
  | hdr :: dataRows =>
    match headerIdx hdr with
    | none => []
    | some i =>
      dataRows.filterMap (fun row =>
        if i < row.length then
          let v := trimCL (row.getD i [])
          if !v.isEmpty && isDigits v then some v else none
        else none)

/-- `_extract_po_column_from_html_table` (src/main.py:150-179):
all matching tables contribute, in document order. -/
def extractHtmlPoCL (body : Chars) : List Chars :=
  ((findBlocks tableOpenCls tableCloseCls body).map tableVals).flatten

def extract_po_column_from_html_table (body : String) : List String :=
  (extractHtmlPoCL body.data).map ofChars

/-! ### Markdown table extractor -/

/-- `[c.strip() for c in line.split("|")][1:-1]` (src/main.py:192). -/
def mdCells (line : Chars) : List Chars :=
  (((splitChar '|' line).map trimCL).drop 1).dropLast

/-- `re.match(r"^[\s\-:]+$", val)`: separator-row cell. -/
def isSepRow (v : Chars) : Bool :=
  !v.isEmpty && v.all (fun c => pyIsSpace c || c = '-' || c = ':')

def BAR : Chars := ['|']

/-- Data-line loop of `_extract_po_column_from_markdown_table`
(src/main.py:203-218): consume lines while they start with `|`;
short rows are skipped (not a stop), separator cells skipped, digit
values emitted. -/
def mdCollect (colIdx : Nat) : List Chars → List Chars
  | [] => []
  | l :: rest =>
    let dl := trimCL l
    if !isPre BAR dl then []
    else
      let cells := mdCells dl
      if cells.length ≤ colIdx then mdCollect colIdx rest
      else
        let v := trimCL (cells.getD colIdx [])
        if v.isEmpty then mdCollect colIdx rest
        else if isSepRow v then mdCollect colIdx rest
        else if isDigits v then v :: mdCollect colIdx rest
        else mdCollect colIdx rest

/-- Header scan of `_extract_po_column_from_markdown_table`
(src/main.py:188-219): the first line that looks like a table row and
has a matching header column wins; its data block is consumed and the
scan stops (`break`). -/
def mdScan : List Chars → List Chars
  | [] => []
  | l :: rest =>
    if !(isPre BAR l && hasSub BAR (l.drop 1)) then mdScan rest
    else
      let cells := mdCells l
      if cells.isEmpty then mdScan rest
      else
        match headerIdx cells with
        | none => mdScan rest
        | some j => mdCollect j rest

/-- `lines = [ln.strip() for ln in (body or "").splitlines()]`. -/
def mdLinesOf (body : Chars) : List Chars :=
  (splitlinesCL body).map trimCL

def extract_po_column_from_markdown_table (body : String) : List String :=
  (mdScan (mdLinesOf body.data)).map ofChars

/-- `_extract_po_numbers_from_update_body` (src/main.py:223-237):
trim; empty gives empty; HTML first, Markdown only as fallback. -/
def extractBodyPoCL (body : Chars) : List Chars :=
  let bd := trimCL body
  if bd.isEmpty then []
  else
    let pos := extractHtmlPoCL bd
    if pos.isEmpty then mdScan (mdLinesOf bd) else pos

def extract_po_numbers_from_update_body (body : String) : List String :=
  (extractBodyPoCL body.data).map ofChars

/-! ### A small backtracking regex matcher

Used for the two subject grammars (`SOBEYS_SUBJECT_RE`,
`LOBLAW_C3_CLIENT_RE`) and for the `Scheduled Date` body pattern: these
patterns combine lazy groups with greedy pieces, so they are modelled
with an explicit CPS backtracking matcher.  Greedy stars try consuming
first, lazy stars try the continuation first, alternation tries the
left arm first — exactly Python `re`'s exploration order, so the match
and group contents coincide with `re.match`.  The fuel bounds the depth
of the continuation chain; `(length + 1) * 200` is far more than the
patterns below can ever nest. -/

inductive RE where
  | eps : RE
  | cls : (Char → Bool) → RE
  | cat : RE → RE → RE
  | alt : RE → RE → RE
  | starG : RE → RE
  | starL : RE → RE
  | grp : Nat → RE → RE
  | eos : RE

abbrev Caps := List (Nat × Chars)

def mat : Nat → RE → Chars → (Chars → Option Caps) → Option Caps
  | 0, _, _, _ => none
  | _ + 1, RE.eps, s, k => k s
  | _ + 1, RE.eos, s, k => if s.isEmpty then k s else none
  | _ + 1, RE.cls p, s, k =>
    match s with
    | [] => none
    | c :: rest => if p c then k rest else none
  | f + 1, RE.cat a b, s, k => mat f a s (fun s2 => mat f b s2 k)
  | f + 1, RE.alt a b, s, k =>
    match mat f a s k with
    | some r => some r
    | none => mat f b s k
  | f + 1, RE.starG a, s, k =>
    match mat f a s (fun s2 => mat f (RE.starG a) s2 k) with
    | some r => some r
    | none => k s
  | f + 1, RE.starL a, s, k =>
    match k s with
    | some r => some r
    | none => mat f a s (fun s2 => mat f (RE.starL a) s2 k)
  | f + 1, RE.grp i a, s, k =>
    mat f a s (fun s2 => (k s2).map (fun cp => (i, s.take (s.length - s2.length)) :: cp))

def rseq (l : List RE) : RE := l.foldr RE.cat RE.eps

/-- Case-insensitive literal. -/
def litCI (s : String) : RE := rseq (s.data.map (fun c => RE.cls (ciEq c)))

def plusG (a : RE) : RE := RE.cat a (RE.starG a)
def plusL (a : RE) : RE := RE.cat a (RE.starL a)
def wsC : RE := RE.cls pyIsSpace
def dC : RE := RE.cls pyDigit
/-- `.` under `re.DOTALL`. -/
def anyC : RE := RE.cls (fun _ => true)
/-- `.` without `re.DOTALL`. -/
def nnlC : RE := RE.cls (fun c => c ≠ '\n')

/-- `re.match(pattern, s)`: anchored prefix match; the base continuation
accepts any remainder (a `$` in the pattern is `RE.eos`). -/
def reMatch (r : RE) (s : Chars) : Option Caps :=
  mat ((s.length + 1) * 200) r s (fun _ => some [])

def capGet (cp : Caps) (i : Nat) : Option Chars :=
  (cp.find? (fun p => p.fst == i)).map Prod.snd

/-! ### Vendor A (Sobeys) subject grammar -/

/-- `SOBEYS_SUBJECT_RE` (src/main.py:244-247):
`^(.+?)\s+-\s+(.+?)\s*(?:for\s+|:\s*)(\d+)\s+on\s+(.+?)\s+for\s+(.+)$`
with `re.IGNORECASE | re.DOTALL`.  The subject is stripped before
matching, so `$` is end of input. -/
def SOBEYS_SUBJECT_RE : RE := rseq [
  RE.grp 1 (plusL anyC),
  plusG wsC, litCI "-", plusG wsC,
  RE.grp 2 (plusL anyC),
  RE.starG wsC,
  RE.alt (RE.cat (litCI "for") (plusG wsC)) (RE.cat (litCI ":") (RE.starG wsC)),
  RE.grp 3 (plusG dC),
  plusG wsC, litCI "on", plusG wsC,
  RE.grp 4 (plusL anyC),
  plusG wsC, litCI "for", plusG wsC,
  RE.grp 5 (plusG anyC),
  RE.eos]

/-- The six-field partial record a subject parse produces
(`po_numbers` is always `None` there and is omitted). -/
structure ParsedSubject where
  appointment_number : Option String
  client : Option String
  consignee : Option String
  appointment_date_time : Option String
  c3_response : Option String
deriving DecidableEq, Repr

def ParsedSubject.empty : ParsedSubject := ⟨none, none, none, none, none⟩

/-- `_parse_sobeys_subject` (src/main.py:250-275). -/
def parse_sobeys_subject (subject : String) : ParsedSubject :=
  let s := trimCL subject.data
  match reMatch SOBEYS_SUBJECT_RE s with
  | none => ParsedSubject.empty
  | some cp =>
    { client := (capGet cp 1).map (fun v => ofChars (trimCL v))
      c3_response := (capGet cp 2).map (fun v => ofChars (trimCL v))
      appointment_number := (capGet cp 3).map (fun v => ofChars (trimCL v))
      appointment_date_time := (capGet cp 4).map (fun v => ofChars (trimCL v))
      consignee := (capGet cp 5).map (fun v => ofChars (trimCL v)) }

/-! ### Vendor B (Loblaw) subject grammar -/

/-- `LOBLAW_C3_CLIENT_RE` (src/main.py:280-283):
`^(.+?)\s+-\s+from\s+(.+?)(?:\s+Appointing|\s*:|\s*$)` with
`re.IGNORECASE` (no DOTALL: `.` excludes newlines). -/
def LOBLAW_C3_CLIENT_RE : RE := rseq [
  RE.grp 1 (plusL nnlC),
  plusG wsC, litCI "-", plusG wsC, litCI "from", plusG wsC,
  RE.grp 2 (plusL nnlC),
  RE.alt (RE.cat (plusG wsC) (litCI "Appointing"))
    (RE.alt (RE.cat (RE.starG wsC) (litCI ":"))
      (RE.cat (RE.starG wsC) RE.eos))]

/-- `_parse_loblaw_subject` (src/main.py:286-304): only `c3_response`
and `client` can be set; no match leaves every field absent. -/
def parse_loblaw_subject (subject : String) : ParsedSubject :=
  let s := trimCL subject.data
  match reMatch LOBLAW_C3_CLIENT_RE s with
  | none => ParsedSubject.empty
  | some cp =>
    { ParsedSubject.empty with
      c3_response := (capGet cp 1).map (fun v => ofChars (trimCL v))
      client := (capGet cp 2).map (fun v => ofChars (trimCL v)) }

/-! ### Vendor B (Loblaw) body grammar

The four body patterns are anchored linear patterns whose pieces have
disjoint character classes, so each is modelled by a direct prefix
matcher, applied at successive start positions (`scanFor` =
`re.search`'s left-to-right scan). -/

/-- `re.search` position scan: try the prefix matcher at every suffix,
leftmost first. -/
def scanFor (f : Chars → Option α) : Chars → Option α
  | [] => f []
  | c :: cs =>
    match f (c :: cs) with
    | some r => some r
    | none => scanFor f cs

/-- Case-insensitive literal at the head; remainder on success. -/
def dropLitCI (lit s : Chars) : Option Chars :=
  if isPreCI lit s then some (s.drop lit.length) else none

/-- `\s*` (greedy; safe because every following piece starts with a
non-whitespace character class). -/
def skipWs (s : Chars) : Chars := s.dropWhile pyIsSpace

/-- `\s+`: at least one whitespace character, consumed greedily;
returns the consumed run and the remainder. -/
def wsPlus : Chars → Option (Chars × Chars)
  | [] => none
  | c :: cs =>
    if pyIsSpace c then some ((c :: cs).takeWhile pyIsSpace, (c :: cs).dropWhile pyIsSpace)
    else none

def charTok (t : Char) : Chars → Option Chars
  | [] => none
  | c :: cs => if c = t then some cs else none

/-- `\d{n}`: exactly n digits. -/
def takeExactDigits (n : Nat) (s : Chars) : Option (Chars × Chars) :=
  let ds := s.take n
  if ds.length = n && ds.all pyDigit then some (ds, s.drop n) else none

/-- `\d{1,2}:` — greedy two digits, backtracking to one, the colon
consumed: exactly Python's exploration of `(\d{1,2}):`. -/
def hour12c : Chars → Option (Chars × Chars)
  | a :: b :: c :: rest =>
    if pyDigit a then
      if pyDigit b then (if c = ':' then some ([a, b], rest) else none)
      else if b = ':' then some ([a], c :: rest)
      else none
    else none
  | [a, b] => if pyDigit a && b = ':' then some ([a], []) else none
  | _ => none

/-- `[A-Z]{3,4}` under IGNORECASE: three or four ASCII letters,
greedy. -/
def tz34 : Chars → Option (Chars × Chars)
  | a :: b :: c :: d :: rest =>
    if pyAlpha a && pyAlpha b && pyAlpha c then
      (if pyAlpha d then some ([a, b, c, d], rest) else some ([a, b, c], d :: rest))
    else none
  | [a, b, c] =>
    if pyAlpha a && pyAlpha b && pyAlpha c then some ([a, b, c], []) else none
  | _ => none

/-- `Reference\s*#\s*:\s*` prefix; remainder on success. -/
def refPre (s : Chars) : Option Chars :=
  (dropLitCI "Reference".data s).bind fun s1 =>
  (charTok '#' (skipWs s1)).bind fun s2 =>
  (charTok ':' (skipWs s2)).bind fun s3 =>
  some (skipWs s3)

/-- `(\d+)`: nonempty maximal digit run. -/
def digitsTail (s : Chars) : Option Chars :=
  if (s.takeWhile pyDigit).isEmpty then none else some (s.takeWhile pyDigit)

/-- `re.search(r"Reference\s*#\s*:\s*(\d+)", s, re.IGNORECASE)`,
returning group 1 (src/main.py:320 and 738). -/
def refSearch (s : Chars) : Option Chars :=
  scanFor (fun t => (refPre t).bind digitsTail) s

/-- `Scheduled\s+Date\s*:\s*` prefix of the scheduled-date pattern
(src/main.py:324-328); remainder on success. -/
def schedPre (s : Chars) : Option Chars :=
  (dropLitCI "Scheduled".data s).bind fun s1 =>
  (wsPlus s1).bind fun w1 =>
  (dropLitCI "Date".data w1.2).bind fun s2 =>
  (charTok ':' (skipWs s2)).bind fun s3 =>
  some (skipWs s3)

/-- `\d{2}/\d{2}/\d{4}`: the date part of group 1 plus remainder. -/
def schedDate (s : Chars) : Option (Chars × Chars) :=
  (takeExactDigits 2 s).bind fun dd =>
  (charTok '/' dd.2).bind fun s5 =>
  (takeExactDigits 2 s5).bind fun mm =>
  (charTok '/' mm.2).bind fun s6 =>
  (takeExactDigits 4 s6).bind fun yy =>
  some (dd.1 ++ '/' :: mm.1 ++ '/' :: yy.1, yy.2)

/-- `\s+\d{1,2}:\d{2}\s+[A-Z]{3,4}`: the time part of group 1 (with
its actual whitespace runs, as captured). -/
def schedTime (s : Chars) : Option Chars :=
  (wsPlus s).bind fun w2 =>
  (hour12c w2.2).bind fun hh =>
  (takeExactDigits 2 hh.2).bind fun mi =>
  (wsPlus mi.2).bind fun w3 =>
  (tz34 w3.2).bind fun tz =>
  some (w2.1 ++ hh.1 ++ ':' :: mi.1 ++ w3.1 ++ tz.1)

/-- Prefix matcher for
`Scheduled\s+Date\s*:\s*(\d{2}/\d{2}/\d{4}\s+\d{1,2}:\d{2}\s+[A-Z]{3,4})`
(src/main.py:324-328), returning the group-1 text. -/
def schedAt (s : Chars) : Option Chars :=
  (schedPre s).bind fun s1 =>
  (schedDate s1).bind fun d =>
  (schedTime d.2).bind fun t =>
  some (d.1 ++ t)

def schedSearch (s : Chars) : Option Chars := scanFor schedAt s

/-- The lookahead
`(?=\s+Warehouse\s*:|\s{2,}|\n|PO\s*\(|Comments:|$)` of the `Site`
pattern (src/main.py:333). -/
def siteLk (s : Chars) : Bool :=
  (match wsPlus s with
   | some w =>
     (match dropLitCI "Warehouse".data w.2 with
      | some r => (charTok ':' (skipWs r)).isSome
      | none => false)
   | none => false) ||
  (match s with
   | a :: b :: _ => pyIsSpace a && pyIsSpace b
   | _ => false) ||
  (match s with
   | '\n' :: _ => true
   | _ => false) ||
  (match dropLitCI "PO".data s with
   | some r => (charTok '(' (skipWs r)).isSome
   | none => false) ||
  isPreCI "Comments:".data s ||
  s.isEmpty

/-- `([^\n]+?)` before the lookahead: minimal nonempty run of
non-newline characters after which the lookahead holds. -/
def siteCapGo (acc : Chars) : Chars → Option Chars
  | [] => if siteLk [] then some acc.reverse else none
  | c :: cs =>
    if siteLk (c :: cs) then some acc.reverse
    else if c = '\n' then none
    else siteCapGo (c :: acc) cs

def siteCap : Chars → Option Chars
  | [] => none
  | c :: cs => if c = '\n' then none else siteCapGo [c] cs

/-- Prefix matcher for the `Site\s*:\s*([^\n]+?)(?=...)` pattern. -/
def siteAt (s : Chars) : Option Chars :=
  (dropLitCI "Site".data s).bind fun s1 =>
  (charTok ':' (skipWs s1)).bind fun s2 =>
  siteCap (skipWs s2)

def siteSearch (s : Chars) : Option Chars := scanFor siteAt s

/-- `[\d,\s]`. -/
def poCls (c : Char) : Bool := pyDigit c || c = ',' || pyIsSpace c

/-- `([\d,\s]+)`: nonempty maximal run of digits/commas/whitespace. -/
def poTail (s : Chars) : Option Chars :=
  if (s.takeWhile poCls).isEmpty then none else some (s.takeWhile poCls)

/-- `PO\s*\(\s*s\s*\)\s*:\s*` prefix (src/main.py:340). -/
def poPre1 (s : Chars) : Option Chars :=
  (dropLitCI "PO".data s).bind fun s1 =>
  (charTok '(' (skipWs s1)).bind fun s2 =>
  (dropLitCI "s".data (skipWs s2)).bind fun s3 =>
  (charTok ')' (skipWs s3)).bind fun s4 =>
  (charTok ':' (skipWs s4)).bind fun s5 =>
  some (skipWs s5)

/-- `PO\s*:\s*` prefix (src/main.py:342, fallback pattern). -/
def poPre2 (s : Chars) : Option Chars :=
  (dropLitCI "PO".data s).bind fun s1 =>
  (charTok ':' (skipWs s1)).bind fun s2 =>
  some (skipWs s2)

/-- `raw = re.sub(r"\s+", "", g); [p for p in raw.split(",") if p]`
(src/main.py:344-345). -/
def poSplit (cap : Chars) : List String :=
  ((splitChar ',' (cap.filter (fun c => !pyIsSpace c))).filter
    (fun seg => !seg.isEmpty)).map ofChars

/-- The inline PO list search: `PO(s) :` pattern first, plain `PO :` as
fallback (src/main.py:340-345). -/
def poListSearch (text : Chars) : Option (List String) :=
  match scanFor (fun t => (poPre1 t).bind poTail) text with
  | some cap => some (poSplit cap)
  | none => (scanFor (fun t => (poPre2 t).bind poTail) text).map poSplit

/-- Fields `_parse_loblaw_body` extracts (src/main.py:308-346). -/
structure LoblawBody where
  appointment_number : Option String
  appointment_date_time : Option String
  consignee : Option String
  po_numbers : Option (List String)
deriving DecidableEq, Repr

/-- `_parse_loblaw_body` (src/main.py:308-346): operates on the
HTML-stripped text with CRLF normalized, and extracts the four fields
independently. -/
def parse_loblaw_body (body : String) : LoblawBody :=
  if body.data.isEmpty then ⟨none, none, none, none⟩
  else
    let text := replAll "\r\n".data "\n".data (stripHtmlCL body.data)
    { appointment_number := (refSearch text).map (fun v => ofChars (trimCL v))
      appointment_date_time := (schedSearch text).map (fun v => ofChars (trimCL v))
      consignee := (siteSearch text).map (fun v => ofChars (trimCL v))
      po_numbers := poListSearch text }

/-! ### PO aggregation (dedup) -/

/-- Dedup preserving first-seen order (the loop in
`_extract_po_numbers_for_item`, src/main.py:755-760, and the Sobeys
branch, src/main.py:929-935); `seen` plays the role of the python set. -/
def dedupeGo (seen : List String) : List String → List String
  | [] => []
  | p :: rest =>
    if p ∈ seen then dedupeGo seen rest
    else p :: dedupeGo (p :: seen) rest

def dedupe (l : List String) : List String := dedupeGo [] l

/-- The loop in `_merge_loblaw_po_from_table` (src/main.py:353-359):
each entry is stripped, empties dropped, rest deduped first-seen. -/
def dedupeStripGo (seen : List String) : List String → List String
  | [] => []
  | p :: rest =>
    let q := trimString p
    if q ≠ "" ∧ q ∉ seen then q :: dedupeStripGo (q :: seen) rest
    else dedupeStripGo seen rest

def dedupeStrip (l : List String) : List String := dedupeStripGo [] l

/-- `_merge_loblaw_po_from_table` (src/main.py:349-360). -/
def merge_loblaw_po_from_table (body : String) (from_body : Option (List String)) :
    List String :=
  let from_table := extract_po_numbers_from_update_body body
  dedupeStrip (from_body.getD [] ++ from_table)

/-- The per-update loop shared by `_extract_po_numbers_for_item`
(src/main.py:750-754) and the Sobeys branch (src/main.py:925-928):
strip each update body, skip empties, extract, concatenate in update
order. -/
def poFromUpdates (updates : List String) : List String :=
  (updates.map (fun u =>
    let b := trimCL u.data
    if b.isEmpty then [] else (extractBodyPoCL b).map ofChars)).flatten

/-- `_extract_po_numbers_for_item` (src/main.py:745-761): an update is
modelled by its body string. -/
def extract_po_numbers_for_item (updates : List String) : List String × Nat :=
  (dedupe (poFromUpdates updates), updates.length)

/-! ### DateTime normalizer -/

/-- Decimal rendering of a natural number (`%d`); total, with the
one- and two-digit cases — the only reachable ones for an hour from a
`\d{1,2}` capture — spelled out. -/
def natDecimal (n : Nat) : Chars :=
  if n < 10 then [Nat.digitChar n]
  else if n < 100 then [Nat.digitChar (n / 10), Nat.digitChar (n % 10)]
  else (toString n).data

/-- `f"{n:02d}"`: pad to two digits. -/
def fmt02 (n : Nat) : Chars :=
  if n < 10 then '0' :: natDecimal n else natDecimal n

/-- `int(h)` for a digit capture. -/
def natOfDigits (ds : Chars) : Nat :=
  ds.foldl (fun n c => n * 10 + (c.toNat - 48)) 0

/-- Anchored prefix matcher for
`(\d{4})/(\d{2})/(\d{2})\s+(\d{1,2}):(\d{2})(?::(\d{2}))?`
(src/main.py:397): groups y, mo, d, h, mi, optional sec; trailing text
is ignored (`re.match`). -/
def ymdAt (s : Chars) : Option (Chars × Chars × Chars × Chars × Chars × Option Chars) :=
  (takeExactDigits 4 s).bind fun y =>
  (charTok '/' y.2).bind fun s1 =>
  (takeExactDigits 2 s1).bind fun mo =>
  (charTok '/' mo.2).bind fun s2 =>
  (takeExactDigits 2 s2).bind fun d =>
  (wsPlus d.2).bind fun w =>
  (hour12c w.2).bind fun h =>
  (takeExactDigits 2 h.2).bind fun mi =>
  match (charTok ':' mi.2).bind (takeExactDigits 2) with
  | some sec => some (y.1, mo.1, d.1, h.1, mi.1, some sec.1)
  | none => some (y.1, mo.1, d.1, h.1, mi.1, none)

/-- Anchored prefix matcher for
`(\d{2})/(\d{2})/(\d{4})\s+(\d{1,2}):(\d{2})(?::(\d{2}))?`
(src/main.py:402): groups d, mo, y, h, mi, optional sec. -/
def dmyAt (s : Chars) : Option (Chars × Chars × Chars × Chars × Chars × Option Chars) :=
  (takeExactDigits 2 s).bind fun d =>
  (charTok '/' d.2).bind fun s1 =>
  (takeExactDigits 2 s1).bind fun mo =>
  (charTok '/' mo.2).bind fun s2 =>
  (takeExactDigits 4 s2).bind fun y =>
  (wsPlus y.2).bind fun w =>
  (hour12c w.2).bind fun h =>
  (takeExactDigits 2 h.2).bind fun mi =>
  match (charTok ':' mi.2).bind (takeExactDigits 2) with
  | some sec => some (d.1, mo.1, y.1, h.1, mi.1, some sec.1)
  | none => some (d.1, mo.1, y.1, h.1, mi.1, none)

/-- `f"{y}-{mo}-{d}"`. -/
def dateJoin (y mo d : Chars) : String := ofChars (y ++ '-' :: mo ++ '-' :: d)

/-- `f"{int(h):02d}:{mi}:{(sec or '00')}"`. -/
def timeJoin (h mi : Chars) (sec : Option Chars) : String :=
  ofChars (fmt02 (natOfDigits h) ++ ':' :: mi ++ ':' :: sec.getD ['0', '0'])

/-- `_parse_appointment_datetime_for_monday` (src/main.py:390-407):
`none` models the empty dict `{}`. -/
def parse_appointment_datetime_for_monday (value : String) :
    Option (String × String) :=
  if value = "" then none
  else
    let v := trimCL value.data
    match ymdAt v with
    | some (y, mo, d, h, mi, sec) => some (dateJoin y mo d, timeJoin h mi sec)
    | none =>
      match dmyAt v with
      | some (d, mo, y, h, mi, sec) => some (dateJoin y mo d, timeJoin h mi sec)
      | none => none

/-! ### Response code mapper -/

/-- `C3_RESPONSE_MAP` (src/main.py:51-63), in source order. -/
def C3_RESPONSE_MAP : List (String × String) := [
  ("reservation approval", "Approved"),
  ("update", "Update"),
  ("no show appointment", "No show"),
  ("missing/incorrect paperwork", "Missing/Incorrect Paperwork"),
  ("signed paperwork", "Signed Paperwork"),
  ("appointment confirmation approved", "Approved"),
  ("appointment cancellation request approved", "Cancelled"),
  ("appointment rejection", "Rejected"),
  ("no show notification", "No Show"),
  ("amendment accepted", "Amendment Accepted")]

/-- `dict.get`. -/
def mapGet (m : List (String × String)) (k : String) : Option String :=
  (m.find? (fun p => p.fst == k)).map Prod.snd

/-- `_map_c3_response_to_column_label` (src/main.py:69-76): key is the
stripped, lowercased input; a miss retries with double spaces collapsed
(`key.replace("  ", " ")`); `none` input or empty key gives `none`.
(The python `get(a) or get(b)` uses truthiness; every map value is a
nonempty string, so it is `Option.orElse` here.) -/
def map_c3_response_to_column_label : Option String → Option String
  | none => none
  | some r =>
    if r = "" then none
    else
      let key := ofChars (lowerCL (trimCL r.data))
      if key = "" then none
      else
        match mapGet C3_RESPONSE_MAP key with
        | some v => some v
        | none => mapGet C3_RESPONSE_MAP (ofChars (replAll "  ".data " ".data key.data))

/-! ### Record classifier -/

def ROW_TYPE_NEW : String := "New"
def ROW_TYPE_UPDATE : String := "Update"

/-- `ROW_TYPE_NEW if count <= 1 else ROW_TYPE_UPDATE`
(src/main.py:951 and 954). -/
def classifyCount (count : Nat) : String :=
  if count ≤ 1 then ROW_TYPE_NEW else ROW_TYPE_UPDATE

/-- Sobeys row-type decision (src/main.py:948-951): the board count is
an external data-source call, abstracted as a function; an empty
(stripped) appointment number short-circuits to count 0. -/
def sobeysRowType (boardCount : String → Nat) (appt0 : Option String) : String :=
  let appt := trimString (appt0.getD "")
  classifyCount (if appt ≠ "" then boardCount appt else 0)

/-- `counts.get(ref, 0)` on the assoc-list model of the dict. -/
def lookupCount (counts : List (String × Nat)) (k : String) : Nat :=
  ((counts.find? (fun p => p.fst == k)).map Prod.snd).getD 0

/-- `counts[ref] = counts.get(ref, 0) + 1` on the assoc-list model. -/
def bumpCount (acc : List (String × Nat)) (k : String) : List (String × Nat) :=
  if (acc.find? (fun p => p.fst == k)).isSome then
    acc.map (fun p => if p.fst == k then (p.fst, p.snd + 1) else p)
  else acc ++ [(k, 1)]

/-- The counting loop of `_get_loblaw_reference_number_counts`
(src/main.py:732-742), over the flattened list of update bodies of the
fetched Loblaw items: strip each body, skip empties, search the
`Reference #` pattern, bump the count of group 1. -/
def countStep (acc : List (String × Nat)) (b : String) : List (String × Nat) :=
  if (trimCL b.data).isEmpty then acc
  else
    match refSearch (trimCL b.data) with
    | none => acc
    | some d => bumpCount acc (ofChars (trimCL d))

def countsFromBodies (bodies : List String) : List (String × Nat) :=
  bodies.foldl countStep []

/-- Loblaw row-type decision (src/main.py:952-954). -/
def loblawRowType (counts : List (String × Nat)) (appt0 : Option String) : String :=
  let appt := trimString (appt0.getD "")
  classifyCount (lookupCount counts appt)

/-! ### Extraction orchestrator (pure per-item part) -/

/-- The six extracted fields of one work item (the `extracted_row` of
src/main.py:956-963). -/
structure RowFields where
  appointment_number : Option String
  client : Option String
  consignee : Option String
  appointment_date_time : Option String
  c3_response : Option String
  po_numbers : List String
deriving DecidableEq, Repr

/-- The vendor discriminator of src/main.py:918 and 949:
`"Sobeys" in name or (name and name.strip().lower().startswith("sobeys"))`. -/
def isSobeysName (name : String) : Bool :=
  hasSub "Sobeys".data name.data ||
    (!name.data.isEmpty && isPre "sobeys".data (lowerCL (trimCL name.data)))

/-- Body selection of src/main.py:904-908: the first update's stripped
body, or the second update's stripped body when the first is empty;
empty when there are no updates (later updates are never consulted). -/
def selectBody (updates : List String) : String :=
  match updates with
  | [] => ""
  | u0 :: rest =>
    let b0 := trimString u0
    if b0 ≠ "" then b0
    else
      match rest with
      | [] => ""
      | u1 :: _ => trimString u1

/-- The pure per-item field extraction of
`extract_c3_appointment_details` (src/main.py:900-944): name is the
item name (stripped at line 902), updates are the item's update bodies
in order. -/
def extractRow (name0 : String) (updates : List String) : RowFields :=
  let name := trimString name0
  let body := selectBody updates
  if isSobeysName name then
    let parsed := parse_sobeys_subject name
    { appointment_number := parsed.appointment_number
      client := parsed.client
      consignee := parsed.consignee
      appointment_date_time := parsed.appointment_date_time
      c3_response := parsed.c3_response
      po_numbers := dedupe (poFromUpdates updates) }
  else
    let ps := parse_loblaw_subject name
    let pb := parse_loblaw_body body
    { appointment_number := pb.appointment_number
      client := ps.client
      consignee := pb.consignee
      appointment_date_time := pb.appointment_date_time
      c3_response := ps.c3_response
      po_numbers := merge_loblaw_po_from_table body pb.po_numbers }

/-! ### `extract_c3_po_numbers` input validation -/

def CAPABILITY_NAME : String := "extract_c3_po_numbers"

/-- First step of `extract_c3_po_numbers` (src/main.py:779-798): either
a structured error result (returned before the API token is resolved
and before any data-source call) or the list of ids that will be
fetched. -/
inductive PoStart where
  | err : String → String → PoStart
  | fetch : List Int → PoStart
deriving DecidableEq, Repr

/-- The id-selection logic of src/main.py:780-788: a nonempty
`item_ids` wins, else a present `item_id`, else the structured error. -/
def extract_c3_po_numbers_start (item_id : Option Int) (item_ids : Option (List Int)) :
    PoStart :=
  match item_ids with
  | some l =>
    if l.length > 0 then PoStart.fetch l
    else
      match item_id with
      | some i => PoStart.fetch [i]
      | none => PoStart.err "Either item_id or item_ids is required" CAPABILITY_NAME
  | none =>
    match item_id with
    | some i => PoStart.fetch [i]
    | none => PoStart.err "Either item_id or item_ids is required" CAPABILITY_NAME

/-! ### Spec-side definitions (for refinement claims) -/

/-- Modelled from the spec: the PO Aggregator contract of §4.4 as the
claim states it — the inline key-value PO list (Vendor B only) followed
by the table-extraction results from EVERY RawUpdate body of the work
item, in update order, deduplicated by exact string equality preserving
first-seen order. -/
def specPoAggregate (name0 : String) (updates : List String) : List String :=
  let name := trimString name0
  let inline :=
    if isSobeysName name then []
    else ((parse_loblaw_body (selectBody updates)).po_numbers).getD []
  dedupe (inline ++ (updates.map extract_po_numbers_from_update_body).flatten)

/-- Modelled from the spec, amended per the code: table extraction runs
over every update body for Vendor A, but only over the selected body
(first update's body, or second when the first is trim-empty) for
Vendor B, where the inline list precedes it. -/
def specPoAggregateAmended (name0 : String) (updates : List String) : List String :=
  let name := trimString name0
  if isSobeysName name then
    dedupe ((updates.map extract_po_numbers_from_update_body).flatten)
  else
    let body := selectBody updates
    dedupe (((parse_loblaw_body body).po_numbers).getD [] ++
      extract_po_numbers_from_update_body body)

/-! ### Helper lemmas: trimming -/

theorem mem_of_head? {α : Type} {l : List α} {a : α} (h : l.head? = some a) : a ∈ l := by
  cases l with
  | nil => simp at h
  | cons x xs => simp at h; simp [h]

theorem dropWhile_head?_not {α : Type} {p : α → Bool} {l : List α} {c : α}
    (h : (l.dropWhile p).head? = some c) : p c = false := by
  induction l with
  | nil => simp at h
  | cons a as ih =>
    rw [List.dropWhile_cons] at h
    by_cases hp : p a = true
    · rw [if_pos hp] at h
      exact ih h
    · rw [if_neg hp] at h
      simp at h
      rw [← h]
      exact Bool.not_eq_true _ |>.mp hp

theorem dropWhile_eq_self_of_head? {α : Type} {p : α → Bool} {l : List α}
    (h : ∀ c, l.head? = some c → p c = false) : l.dropWhile p = l := by
  cases l with
  | nil => rfl
  | cons c cs => simp [List.dropWhile_cons, h c rfl]

theorem dropWhile_self_idem {α : Type} (p : α → Bool) (l : List α) :
    (l.dropWhile p).dropWhile p = l.dropWhile p := by
  induction l with
  | nil => rfl
  | cons c cs ih =>
    by_cases h : p c = true
    · simp [List.dropWhile_cons, h, ih]
    · simp [List.dropWhile_cons, h]

theorem dropWhile_getLast? {α : Type} {p : α → Bool} {l : List α}
    (h : l.dropWhile p ≠ []) : (l.dropWhile p).getLast? = l.getLast? := by
  induction l with
  | nil => simp at h
  | cons a as ih =>
    rw [List.dropWhile_cons]
    by_cases hp : p a = true
    · rw [List.dropWhile_cons, if_pos hp] at h
      have has : as ≠ [] := by
        intro he; rw [he] at h; exact h rfl
      rw [if_pos hp, ih h]
      cases as with
      | nil => exact absurd rfl has
      | cons b bs => rw [List.getLast?_cons_cons]
    · rw [if_neg hp]

theorem trimCL_idem (l : Chars) : trimCL (trimCL l) = trimCL l := by
  unfold trimCL
  generalize hx : l.dropWhile pyIsSpace = x
  have h1 : ((x.reverse.dropWhile pyIsSpace).reverse).dropWhile pyIsSpace
      = (x.reverse.dropWhile pyIsSpace).reverse := by
    apply dropWhile_eq_self_of_head?
    intro c hc
    rw [List.head?_reverse] at hc
    have hzne : x.reverse.dropWhile pyIsSpace ≠ [] := by
      intro he; rw [he] at hc; simp at hc
    rw [dropWhile_getLast? hzne, List.getLast?_reverse] at hc
    exact dropWhile_head?_not (hx ▸ hc)
  rw [h1, List.reverse_reverse, dropWhile_self_idem]

theorem trimCL_eq_self {l : Chars} (h : ∀ c ∈ l, pyIsSpace c = false) :
    trimCL l = l := by
  unfold trimCL
  have h1 : l.dropWhile pyIsSpace = l :=
    dropWhile_eq_self_of_head? (fun c hc => h c (mem_of_head? hc))
  rw [h1]
  have h2 : l.reverse.dropWhile pyIsSpace = l.reverse :=
    dropWhile_eq_self_of_head?
      (fun c hc => h c (List.mem_reverse.mp (mem_of_head? hc)))
  rw [h2, List.reverse_reverse]

theorem pyIsSpace_toNat {c : Char} (h : pyIsSpace c = true) :
    c.toNat = 32 ∨ c.toNat = 9 ∨ c.toNat = 10 ∨ c.toNat = 13 ∨
      c.toNat = 11 ∨ c.toNat = 12 := by
  unfold pyIsSpace at h
  simp only [Bool.or_eq_true, decide_eq_true_eq] at h
  rcases h with ((((h | h) | h) | h) | h) | h
  · exact Or.inl (by rw [h]; rfl)
  · exact Or.inr (Or.inl (by rw [h]; rfl))
  · exact Or.inr (Or.inr (Or.inl (by rw [h]; rfl)))
  · exact Or.inr (Or.inr (Or.inr (Or.inl (by rw [h]; rfl))))
  · exact Or.inr (Or.inr (Or.inr (Or.inr (Or.inl h))))
  · exact Or.inr (Or.inr (Or.inr (Or.inr (Or.inr h))))

theorem pyDigit_not_space {c : Char} (h : pyDigit c = true) :
    pyIsSpace c = false := by
  cases hs : pyIsSpace c
  · rfl
  · exfalso
    have h2 := pyIsSpace_toNat hs
    unfold pyDigit at h
    simp only [Bool.and_eq_true, decide_eq_true_eq] at h
    omega

theorem ofChars_data (s : String) : ofChars s.data = s := rfl

theorem trimString_of_digits {p : String} (h : isDigitsS p = true) :
    trimString p = p ∧ p ≠ "" := by
  unfold isDigitsS isDigits at h
  simp only [Bool.and_eq_true, List.all_eq_true] at h
  constructor
  · show ofChars (trimCL p.data) = p
    rw [trimCL_eq_self (fun c hc => pyDigit_not_space (h.2 c hc)), ofChars_data]
  · intro he
    rw [he] at h
    simp at h

/-! ### Helper lemmas: split and inline PO list -/

theorem mem_splitChar {sep : Char} :
    ∀ (s : Chars), ∀ seg ∈ splitChar sep s, ∀ c ∈ seg, c ∈ s ∧ c ≠ sep := by
  intro s
  induction s with
  | nil =>
    intro seg hseg c hc
    simp [splitChar] at hseg
    rw [hseg] at hc
    simp at hc
  | cons a as ih =>
    intro seg hseg c hc
    by_cases ha : a = sep
    · simp [splitChar, ha] at hseg
      rcases hseg with hseg | hseg
      · rw [hseg] at hc; simp at hc
      · have := ih seg hseg c hc
        exact ⟨List.mem_cons_of_mem _ this.1, this.2⟩
    · cases hr : splitChar sep as with
      | nil =>
        simp [splitChar, ha, hr] at hseg
        rw [hseg] at hc
        simp at hc
        exact ⟨by simp [hc], by rw [hc]; exact ha⟩
      | cons h t =>
        simp [splitChar, ha, hr] at hseg
        rcases hseg with hseg | hseg
        · rw [hseg] at hc
          rcases List.mem_cons.mp hc with hc | hc
          · exact ⟨by simp [hc], by rw [hc]; exact ha⟩
          · have := ih h (by rw [hr]; exact List.mem_cons_self h t) c hc
            exact ⟨List.mem_cons_of_mem _ this.1, this.2⟩
        · have := ih seg (by rw [hr]; exact List.mem_cons_of_mem _ hseg) c hc
          exact ⟨List.mem_cons_of_mem _ this.1, this.2⟩

/-- Every element of the inline PO split is a nonempty digit string,
provided the capture only holds `[\d,\s]` characters. -/
theorem poSplit_digits {cap : Chars} (hcap : ∀ c ∈ cap, poCls c = true) :
    ∀ st ∈ poSplit cap, isDigitsS st = true := by
  intro st hst
  unfold poSplit at hst
  rcases List.mem_map.mp hst with ⟨seg, hseg, hofc⟩
  rcases List.mem_filter.mp hseg with ⟨hsegsp, hne⟩
  have hchars : ∀ c ∈ seg, pyDigit c = true := by
    intro c hc
    have hm := mem_splitChar _ seg hsegsp c hc
    rcases List.mem_filter.mp hm.1 with ⟨hmem, hnsp⟩
    have hcls := hcap c hmem
    unfold poCls at hcls
    simp only [Bool.or_eq_true, decide_eq_true_eq] at hcls
    rcases hcls with (hd | hcomma) | hsp
    · exact hd
    · exact absurd hcomma hm.2
    · exfalso
      have hfalse : pyIsSpace c = false := by simpa using hnsp
      rw [hsp] at hfalse
      exact absurd hfalse (by simp)
  rw [← hofc]
  unfold isDigitsS isDigits
  simp only [Bool.and_eq_true, List.all_eq_true]
  constructor
  · simpa using hne
  · exact hchars

/-- `re.search` position scan yields a result of the prefix matcher at
some suffix. -/
theorem scanFor_some {α : Type} {f : Chars → Option α} :
    ∀ {s : Chars} {r : α}, scanFor f s = some r → ∃ t, f t = some r := by
  intro s
  induction s with
  | nil => intro r h; exact ⟨[], h⟩
  | cons c cs ih =>
    intro r h
    unfold scanFor at h
    cases hf : f (c :: cs) with
    | some v => rw [hf] at h; exact ⟨c :: cs, by rw [hf, ← h]⟩
    | none => rw [hf] at h; exact ih h

theorem poTail_some {s cap : Chars} (h : poTail s = some cap) :
    (∀ c ∈ cap, poCls c = true) ∧ cap ≠ [] := by
  unfold poTail at h
  split at h
  · exact absurd h (by simp)
  · rename_i hne
    injection h with h
    subst h
    exact ⟨fun c hc => List.mem_takeWhile_imp hc, by simpa using hne⟩

theorem digitsTail_some {s ds : Chars} (h : digitsTail s = some ds) :
    (∀ c ∈ ds, pyDigit c = true) ∧ ds ≠ [] := by
  unfold digitsTail at h
  split at h
  · exact absurd h (by simp)
  · rename_i hne
    injection h with h
    subst h
    exact ⟨fun c hc => List.mem_takeWhile_imp hc, by simpa using hne⟩

/-- Every `Reference #` capture is a nonempty digit string. -/
theorem refSearch_digits {s d : Chars} (h : refSearch s = some d) :
    (∀ c ∈ d, pyDigit c = true) ∧ d ≠ [] := by
  rcases scanFor_some h with ⟨t, ht⟩
  rcases Option.bind_eq_some.mp ht with ⟨u, _, htail⟩
  exact digitsTail_some htail

/-- Every element of a found inline PO list is a digit string. -/
theorem poListSearch_digits {text : Chars} {l : List String}
    (h : poListSearch text = some l) : ∀ st ∈ l, isDigitsS st = true := by
  unfold poListSearch at h
  cases h1 : scanFor (fun t => (poPre1 t).bind poTail) text with
  | some cap =>
    rw [h1] at h
    injection h with h
    subst h
    rcases scanFor_some h1 with ⟨t, ht⟩
    rcases Option.bind_eq_some.mp ht with ⟨u, _, htail⟩
    exact poSplit_digits (poTail_some htail).1
  | none =>
    rw [h1] at h
    rcases Option.map_eq_some'.mp h with ⟨cap, hcap, hl⟩
    subst hl
    rcases scanFor_some hcap with ⟨t, ht⟩
    rcases Option.bind_eq_some.mp ht with ⟨u, _, htail⟩
    exact poSplit_digits (poTail_some htail).1

/-! ### Helper lemmas: dedup -/

theorem dedupeGo_spec (l : List String) : ∀ seen,
    (dedupeGo seen l).Nodup ∧ ∀ v ∈ dedupeGo seen l, v ∉ seen ∧ v ∈ l := by
  induction l with
  | nil => intro seen; simp [dedupeGo]
  | cons p rest ih =>
    intro seen
    by_cases hp : p ∈ seen
    · rw [dedupeGo, if_pos hp]
      refine ⟨(ih seen).1, fun v hv => ?_⟩
      have h2 := (ih seen).2 v hv
      exact ⟨h2.1, List.mem_cons_of_mem _ h2.2⟩
    · rw [dedupeGo, if_neg hp]
      have ihp := ih (p :: seen)
      constructor
      · rw [List.nodup_cons]
        refine ⟨fun hmem => ?_, ihp.1⟩
        exact (ihp.2 p hmem).1 (List.mem_cons_self p seen)
      · intro v hv
        rcases List.mem_cons.mp hv with hv | hv
        · exact ⟨hv ▸ hp, hv ▸ List.mem_cons_self p rest⟩
        · have h2 := ihp.2 v hv
          exact ⟨fun hs => h2.1 (List.mem_cons_of_mem _ hs),
            List.mem_cons_of_mem _ h2.2⟩

theorem dedupe_nodup (l : List String) : (dedupe l).Nodup :=
  (dedupeGo_spec l []).1

theorem mem_dedupe {l : List String} {v : String} (h : v ∈ dedupe l) : v ∈ l :=
  ((dedupeGo_spec l []).2 v h).2

theorem dedupeStripGo_spec (l : List String) : ∀ seen,
    (dedupeStripGo seen l).Nodup ∧
      ∀ v ∈ dedupeStripGo seen l, v ∉ seen ∧ ∃ p ∈ l, v = trimString p := by
  induction l with
  | nil => intro seen; simp [dedupeStripGo]
  | cons p rest ih =>
    intro seen
    by_cases hc : trimString p ≠ "" ∧ trimString p ∉ seen
    · rw [dedupeStripGo, if_pos hc]
      have ihp := ih (trimString p :: seen)
      constructor
      · rw [List.nodup_cons]
        refine ⟨fun hmem => ?_, ihp.1⟩
        exact (ihp.2 _ hmem).1 (List.mem_cons_self _ seen)
      · intro v hv
        rcases List.mem_cons.mp hv with hv | hv
        · exact ⟨hv ▸ hc.2, p, List.mem_cons_self p rest, hv⟩
        · have h2 := ihp.2 v hv
          rcases h2.2 with ⟨q, hq, hvq⟩
          exact ⟨fun hs => h2.1 (List.mem_cons_of_mem _ hs),
            q, List.mem_cons_of_mem _ hq, hvq⟩
    · rw [dedupeStripGo, if_neg hc]
      refine ⟨(ih seen).1, fun v hv => ?_⟩
      have h2 := (ih seen).2 v hv
      rcases h2.2 with ⟨q, hq, hvq⟩
      exact ⟨h2.1, q, List.mem_cons_of_mem _ hq, hvq⟩

theorem dedupeStrip_nodup (l : List String) : (dedupeStrip l).Nodup :=
  (dedupeStripGo_spec l []).1

theorem mem_dedupeStrip {l : List String} {v : String} (h : v ∈ dedupeStrip l) :
    ∃ p ∈ l, v = trimString p :=
  ((dedupeStripGo_spec l []).2 v h).2

/-- On entries that are already stripped and nonempty, the Loblaw merge
loop is the plain first-seen dedup. -/
theorem dedupeStrip_eq_dedupe {l : List String}
    (h : ∀ p ∈ l, trimString p = p ∧ p ≠ "") : dedupeStrip l = dedupe l := by
  suffices hgen : ∀ seen, dedupeStripGo seen l = dedupeGo seen l from hgen []
  induction l with
  | nil => intro seen; rfl
  | cons p rest ih =>
    intro seen
    have hp := h p (List.mem_cons_self p rest)
    have hrest : ∀ q ∈ rest, trimString q = q ∧ q ≠ "" :=
      fun q hq => h q (List.mem_cons_of_mem _ hq)
    rw [dedupeStripGo, dedupeGo]
    by_cases hmem : p ∈ seen
    · rw [if_neg (by rw [hp.1]; intro hcon; exact hcon.2 hmem), if_pos hmem]
      exact ih hrest seen
    · rw [if_pos (by rw [hp.1]; exact ⟨hp.2, hmem⟩), if_neg hmem, hp.1]
      rw [ih hrest (p :: seen)]

/-! ### Helper lemmas: every extracted PO value is a digit string -/

theorem tableVals_digits {block : Chars} :
    ∀ v ∈ tableVals block, isDigits v = true := by
  intro v hv
  unfold tableVals at hv
  cases hrows : tableRows block with
  | nil => rw [hrows] at hv; simp at hv
  | cons hdr dataRows =>
    rw [hrows] at hv
    dsimp only at hv
    cases hidx : headerIdx hdr with
    | none => rw [hidx] at hv; simp at hv
    | some i =>
      rw [hidx] at hv
      dsimp only at hv
      rcases List.mem_filterMap.mp hv with ⟨row, _, hrow⟩
      split at hrow
      · split at hrow
        · rename_i hcond
          injection hrow with hrow
          subst hrow
          exact (Bool.and_eq_true _ _ |>.mp hcond).2
        · exact absurd hrow (by simp)
      · exact absurd hrow (by simp)

theorem extractHtmlPoCL_digits {body : Chars} :
    ∀ v ∈ extractHtmlPoCL body, isDigits v = true := by
  intro v hv
  unfold extractHtmlPoCL at hv
  rcases List.mem_flatten.mp hv with ⟨vs, hvs, hvmem⟩
  rcases List.mem_map.mp hvs with ⟨block, _, hblock⟩
  exact tableVals_digits v (hblock ▸ hvmem)

theorem mdCollect_digits {j : Nat} : ∀ {ls : List Chars},
    ∀ v ∈ mdCollect j ls, isDigits v = true := by
  intro ls
  induction ls with
  | nil => intro v hv; simp [mdCollect] at hv
  | cons l rest ih =>
    intro v hv
    rw [mdCollect] at hv
    split at hv
    · simp at hv
    · dsimp only at hv
      split at hv
      · exact ih v hv
      · split at hv
        · exact ih v hv
        · split at hv
          · exact ih v hv
          · split at hv
            · rename_i hdig
              rcases List.mem_cons.mp hv with hv | hv
              · exact hv ▸ hdig
              · exact ih v hv
            · exact ih v hv

theorem mdScan_digits : ∀ {ls : List Chars},
    ∀ v ∈ mdScan ls, isDigits v = true := by
  intro ls
  induction ls with
  | nil => intro v hv; simp [mdScan] at hv
  | cons l rest ih =>
    intro v hv
    rw [mdScan] at hv
    split at hv
    · exact ih v hv
    · dsimp only at hv
      split at hv
      · exact ih v hv
      · split at hv
        · exact ih v hv
        · exact mdCollect_digits v hv

theorem extractBodyPoCL_digits {body : Chars} :
    ∀ v ∈ extractBodyPoCL body, isDigits v = true := by
  intro v hv
  unfold extractBodyPoCL at hv
  dsimp only at hv
  split at hv
  · simp at hv
  · split at hv
    · exact mdScan_digits v hv
    · exact extractHtmlPoCL_digits v hv

theorem extract_po_numbers_from_update_body_digits {body : String} :
    ∀ p ∈ extract_po_numbers_from_update_body body, isDigitsS p = true := by
  intro p hp
  unfold extract_po_numbers_from_update_body at hp
  rcases List.mem_map.mp hp with ⟨v, hv, hofc⟩
  rw [← hofc]
  exact extractBodyPoCL_digits v hv

/-! ### Helper lemmas: frequency table keys -/

theorem bumpCount_keys {acc : List (String × Nat)} {k : String}
    (hacc : ∀ pr ∈ acc, pr.fst ≠ "") (hk : k ≠ "") :
    ∀ pr ∈ bumpCount acc k, pr.fst ≠ "" := by
  intro pr hpr
  unfold bumpCount at hpr
  split at hpr
  · rcases List.mem_map.mp hpr with ⟨q, hq, hqe⟩
    have hfst : pr.fst = q.fst := by
      rw [← hqe]
      split
      · rfl
      · rfl
    rw [hfst]
    exact hacc q hq
  · rcases List.mem_append.mp hpr with hpr | hpr
    · exact hacc pr hpr
    · simp at hpr
      rw [hpr]
      exact hk

theorem countStep_keys {acc : List (String × Nat)} {b : String}
    (hacc : ∀ pr ∈ acc, pr.fst ≠ "") : ∀ pr ∈ countStep acc b, pr.fst ≠ "" := by
  unfold countStep
  split
  · exact hacc
  · cases href : refSearch (trimCL b.data) with
    | none => exact hacc
    | some d =>
      apply bumpCount_keys hacc
      have hd := refSearch_digits href
      have htr : trimCL d = d :=
        trimCL_eq_self (fun c hc => pyDigit_not_space (hd.1 c hc))
      rw [htr]
      intro he
      apply hd.2
      have := congrArg String.data he
      simpa using this

theorem countsFold_keys : ∀ (bodies : List String) (acc : List (String × Nat)),
    (∀ pr ∈ acc, pr.fst ≠ "") → ∀ pr ∈ bodies.foldl countStep acc, pr.fst ≠ "" := by
  intro bodies
  induction bodies with
  | nil => intro acc h; simpa using h
  | cons b bs ih =>
    intro acc h
    rw [List.foldl_cons]
    exact ih _ (countStep_keys h)

/-- The Loblaw frequency table never holds the empty key, so the empty
natural key always counts 0. -/
theorem lookupCount_empty_key (bodies : List String) :
    lookupCount (countsFromBodies bodies) "" = 0 := by
  unfold lookupCount
  have hkeys := countsFold_keys bodies [] (by simp)
  have hfind : (countsFromBodies bodies).find? (fun p => p.fst == "") = none := by
    rw [List.find?_eq_none]
    intro pr hpr
    simp only [beq_iff_eq]
    exact hkeys pr hpr
  rw [hfind]
  rfl

/-! ### Helper lemmas: per-update extraction -/

theorem extractBodyPoCL_trim (x : Chars) :
    extractBodyPoCL (trimCL x) = extractBodyPoCL x := by
  unfold extractBodyPoCL
  rw [trimCL_idem]

theorem poBody_eq (u : String) :
    (if (trimCL u.data).isEmpty then ([] : List String)
      else (extractBodyPoCL (trimCL u.data)).map ofChars) =
      extract_po_numbers_from_update_body u := by
  unfold extract_po_numbers_from_update_body
  by_cases he : (trimCL u.data).isEmpty = true
  · rw [if_pos he]
    unfold extractBodyPoCL
    dsimp only
    rw [if_pos he]
    rfl
  · rw [if_neg he, extractBodyPoCL_trim]

theorem poFromUpdates_eq (updates : List String) :
    poFromUpdates updates =
      (updates.map extract_po_numbers_from_update_body).flatten := by
  unfold poFromUpdates
  congr 1
  apply List.map_congr_left
  intro u _
  dsimp only
  exact poBody_eq u

/-! ### Helper lemmas: datetime normalizer -/

theorem pyDigit_toNat {c : Char} (h : pyDigit c = true) :
    48 ≤ c.toNat ∧ c.toNat ≤ 57 := by
  unfold pyDigit at h
  simpa using h

theorem natOfDigits_one {a : Char} (h : pyDigit a = true) :
    natOfDigits [a] < 100 := by
  have := pyDigit_toNat h
  unfold natOfDigits
  simp [List.foldl]
  omega

theorem natOfDigits_two {a b : Char} (ha : pyDigit a = true)
    (hb : pyDigit b = true) : natOfDigits [a, b] < 100 := by
  have h1 := pyDigit_toNat ha
  have h2 := pyDigit_toNat hb
  unfold natOfDigits
  simp [List.foldl]
  omega

theorem fmt02_len {n : Nat} (h : n < 100) : (fmt02 n).length = 2 := by
  unfold fmt02 natDecimal
  by_cases h10 : n < 10
  · simp [h10]
  · simp [h10, h]

theorem takeExactDigits_some {n : Nat} {s : Chars} {pr : Chars × Chars}
    (h : takeExactDigits n s = some pr) :
    pr.1.length = n ∧ ∀ c ∈ pr.1, pyDigit c = true := by
  unfold takeExactDigits at h
  dsimp only at h
  split at h
  · rename_i hcond
    injection h with h
    subst h
    simp only [Bool.and_eq_true, decide_eq_true_eq, List.all_eq_true] at hcond
    exact ⟨hcond.1, hcond.2⟩
  · exact absurd h (by simp)

theorem hour12c_shape {s : Chars} {pr : Chars × Chars} (h : hour12c s = some pr) :
    (∃ a, pr.1 = [a] ∧ pyDigit a = true) ∨
      (∃ a b, pr.1 = [a, b] ∧ pyDigit a = true ∧ pyDigit b = true) := by
  rcases s with _ | ⟨a, _ | ⟨b, _ | ⟨c, rest⟩⟩⟩
  · simp [hour12c] at h
  · simp [hour12c] at h
  · simp only [hour12c] at h
    split at h
    · rename_i hcond
      injection h with h
      subst h
      simp only [Bool.and_eq_true, decide_eq_true_eq] at hcond
      exact Or.inl ⟨a, rfl, hcond.1⟩
    · exact absurd h (by simp)
  · simp only [hour12c] at h
    split at h
    · split at h
      · split at h
        · rename_i hda hdb _
          injection h with h
          subst h
          exact Or.inr ⟨a, b, rfl, hda, hdb⟩
        · exact absurd h (by simp)
      · split at h
        · rename_i hda _ _
          injection h with h
          subst h
          exact Or.inl ⟨a, rfl, hda⟩
        · exact absurd h (by simp)
    · exact absurd h (by simp)

/-- The hour value of a `\d{1,2}` capture is below 100. -/
theorem hour12c_lt {s : Chars} {pr : Chars × Chars} (h : hour12c s = some pr) :
    natOfDigits pr.1 < 100 := by
  rcases hour12c_shape h with ⟨a, he, hda⟩ | ⟨a, b, he, hda, hdb⟩
  · rw [he]; exact natOfDigits_one hda
  · rw [he]; exact natOfDigits_two hda hdb

theorem ofChars_length (l : Chars) : (ofChars l).length = l.length := rfl

theorem timeJoin_len {h mi : Chars} {sec : Option Chars}
    (hh : natOfDigits h < 100) (hmi : mi.length = 2)
    (hsec : ∀ sc, sec = some sc → sc.length = 2) :
    (timeJoin h mi sec).length = 8 := by
  unfold timeJoin
  rw [ofChars_length]
  have hs : (sec.getD ['0', '0']).length = 2 := by
    cases sec with
    | none => rfl
    | some sc => exact hsec sc rfl
  simp only [List.length_append, List.length_cons, fmt02_len hh, hmi, hs]

theorem ymdAt_time {s : Chars} {r : Chars × Chars × Chars × Chars × Chars × Option Chars}
    (h : ymdAt s = some r) :
    natOfDigits r.2.2.2.1 < 100 ∧ r.2.2.2.2.1.length = 2 ∧
      ∀ sc, r.2.2.2.2.2 = some sc → sc.length = 2 := by
  unfold ymdAt at h
  rcases Option.bind_eq_some.mp h with ⟨y, hy, h⟩
  rcases Option.bind_eq_some.mp h with ⟨s1, hs1, h⟩
  rcases Option.bind_eq_some.mp h with ⟨mo, hmo, h⟩
  rcases Option.bind_eq_some.mp h with ⟨s2, hs2, h⟩
  rcases Option.bind_eq_some.mp h with ⟨d, hd, h⟩
  rcases Option.bind_eq_some.mp h with ⟨w, hw, h⟩
  rcases Option.bind_eq_some.mp h with ⟨hh, hhh, h⟩
  rcases Option.bind_eq_some.mp h with ⟨mi, hmi, h⟩
  have hhl := hour12c_lt hhh
  have hmil := (takeExactDigits_some hmi).1
  cases hsec : (charTok ':' mi.2).bind (takeExactDigits 2) with
  | none =>
    rw [hsec] at h
    injection h with h
    subst h
    exact ⟨hhl, hmil, by intro sc hsc; simp at hsc⟩
  | some sec =>
    rw [hsec] at h
    injection h with h
    subst h
    refine ⟨hhl, hmil, ?_⟩
    intro sc hsc
    simp only [Option.some.injEq] at hsc
    rcases Option.bind_eq_some.mp hsec with ⟨u, _, hu⟩
    have := (takeExactDigits_some hu).1
    rw [← hsc]
    exact this

theorem dmyAt_time {s : Chars} {r : Chars × Chars × Chars × Chars × Chars × Option Chars}
    (h : dmyAt s = some r) :
    natOfDigits r.2.2.2.1 < 100 ∧ r.2.2.2.2.1.length = 2 ∧
      ∀ sc, r.2.2.2.2.2 = some sc → sc.length = 2 := by
  unfold dmyAt at h
  rcases Option.bind_eq_some.mp h with ⟨d, hd, h⟩
  rcases Option.bind_eq_some.mp h with ⟨s1, hs1, h⟩
  rcases Option.bind_eq_some.mp h with ⟨mo, hmo, h⟩
  rcases Option.bind_eq_some.mp h with ⟨s2, hs2, h⟩
  rcases Option.bind_eq_some.mp h with ⟨y, hy, h⟩
  rcases Option.bind_eq_some.mp h with ⟨w, hw, h⟩
  rcases Option.bind_eq_some.mp h with ⟨hh, hhh, h⟩
  rcases Option.bind_eq_some.mp h with ⟨mi, hmi, h⟩
  have hhl := hour12c_lt hhh
  have hmil := (takeExactDigits_some hmi).1
  cases hsec : (charTok ':' mi.2).bind (takeExactDigits 2) with
  | none =>
    rw [hsec] at h
    injection h with h
    subst h
    exact ⟨hhl, hmil, by intro sc hsc; simp at hsc⟩
  | some sec =>
    rw [hsec] at h
    injection h with h
    subst h
    refine ⟨hhl, hmil, ?_⟩
    intro sc hsc
    simp only [Option.some.injEq] at hsc
    rcases Option.bind_eq_some.mp hsec with ⟨u, _, hu⟩
    have := (takeExactDigits_some hu).1
    rw [← hsc]
    exact this

/-- Every successfully normalized time string is `HH:MM:SS`
(8 characters, hour padded to two digits, seconds defaulted). -/
theorem parse_dt_time_len {v d t : String}
    (h : parse_appointment_datetime_for_monday v = some (d, t)) :
    t.length = 8 := by
  unfold parse_appointment_datetime_for_monday at h
  split at h
  · exact absurd h (by simp)
  · dsimp only at h
    cases hy : ymdAt (trimCL v.data) with
    | some r =>
      rw [hy] at h
      rcases r with ⟨y, mo, dd, hh, mi, sec⟩
      simp only [Option.some.injEq, Prod.mk.injEq] at h
      rw [← h.2]
      have := ymdAt_time hy
      exact timeJoin_len this.1 this.2.1 this.2.2
    | none =>
      rw [hy] at h
      cases hm : dmyAt (trimCL v.data) with
      | some r =>
        rw [hm] at h
        rcases r with ⟨dd, mo, y, hh, mi, sec⟩
        simp only [Option.some.injEq, Prod.mk.injEq] at h
        rw [← h.2]
        have := dmyAt_time hm
        exact timeJoin_len this.1 this.2.1 this.2.2
      | none =>
        rw [hm] at h
        exact absurd h (by simp)

/-! ### Helper lemmas: trimmed fields -/

theorem trimString_ofChars_trim (v : Chars) :
    trimString (ofChars (trimCL v)) = ofChars (trimCL v) := by
  unfold trimString
  rw [show (ofChars (trimCL v)).data = trimCL v from rfl, trimCL_idem]

theorem trimmedField {o : Option Chars} {v : String}
    (h : o.map (fun w => ofChars (trimCL w)) = some v) : trimString v = v := by
  rcases Option.map_eq_some'.mp h with ⟨w, _, hw⟩
  rw [← hw]
  exact trimString_ofChars_trim w

theorem parse_loblaw_body_po_digits {b : String} {l : List String}
    (h : (parse_loblaw_body b).po_numbers = some l) :
    ∀ st ∈ l, isDigitsS st = true := by
  unfold parse_loblaw_body at h
  split at h
  · simp at h
  · dsimp only at h
    exact poListSearch_digits h

theorem poFromUpdates_digits {updates : List String} :
    ∀ p ∈ poFromUpdates updates, isDigitsS p = true := by
  intro p hp
  rw [poFromUpdates_eq] at hp
  rcases List.mem_flatten.mp hp with ⟨l, hl, hpl⟩
  rcases List.mem_map.mp hl with ⟨u, _, hu⟩
  exact extract_po_numbers_from_update_body_digits p (hu ▸ hpl)

theorem merge_loblaw_digits {body : String} {pb : Option (List String)}
    (hpb : ∀ l, pb = some l → ∀ st ∈ l, isDigitsS st = true) :
    ∀ p ∈ merge_loblaw_po_from_table body pb, isDigitsS p = true := by
  intro p hp
  unfold merge_loblaw_po_from_table at hp
  rcases mem_dedupeStrip hp with ⟨q, hq, hpq⟩
  have hqd : isDigitsS q = true := by
    rcases List.mem_append.mp hq with hq | hq
    · cases pb with
      | none => simp at hq
      | some l => exact hpb l rfl q (by simpa using hq)
    · exact extract_po_numbers_from_update_body_digits q hq
  rw [hpq, (trimString_of_digits hqd).1]
  exact hqd

/-! ### Claims -/

/-- Claim C3: the record classifier emits "New" whenever the natural
key's occurrence count is 0 or 1 and "Update" whenever the count is at
least 2; an empty or absent natural key yields count 0 on both vendor
paths (Vendor A short-circuits to 0, Vendor B looks up a table whose
keys are all nonempty digit captures) and is therefore always
classified "New". -/
theorem c3_record_classifier :
    (∀ c : Nat, c ≤ 1 → classifyCount c = "New") ∧
    (∀ c : Nat, 2 ≤ c → classifyCount c = "Update") ∧
    (∀ boardCount : String → Nat, ∀ appt0 : Option String,
      trimCL (appt0.getD "").data = [] → sobeysRowType boardCount appt0 = "New") ∧
    (∀ bodies : List String, ∀ appt0 : Option String,
      trimCL (appt0.getD "").data = [] →
        loblawRowType (countsFromBodies bodies) appt0 = "New") := by
  refine ⟨?_, ?_, ?_, ?_⟩
  · intro c hc
    unfold classifyCount
    rw [if_pos hc]
    rfl
  · intro c hc
    unfold classifyCount
    rw [if_neg (by omega)]
    rfl
  · intro f appt0 he
    unfold sobeysRowType
    dsimp only
    have h0 : trimString (appt0.getD "") = "" := by
      unfold trimString
      rw [he]
      rfl
    rw [h0]
    simp only [ne_eq, not_true_eq_false, if_false]
    rfl
  · intro bodies appt0 he
    unfold loblawRowType
    dsimp only
    have h0 : trimString (appt0.getD "") = "" := by
      unfold trimString
      rw [he]
      rfl
    rw [h0, lookupCount_empty_key]
    rfl

theorem c3_record_classifier_witness :
    classifyCount 1 = "New" ∧ classifyCount 2 = "Update" ∧
      sobeysRowType (fun _ => 5) (some "  ") = "New" ∧
      loblawRowType (countsFromBodies ["Reference # : 77"]) none = "New" :=
  ⟨c3_record_classifier.1 1 (by decide),
   c3_record_classifier.2.1 2 (by decide),
   c3_record_classifier.2.2.1 (fun _ => 5) (some "  ") (by decide),
   c3_record_classifier.2.2.2 ["Reference # : 77"] none (by decide)⟩

/-- Claim C5 (counterexample): the response map holds 10 entries, not
the claimed 11 — `C3_RESPONSE_MAP` (src/main.py:51-63) lists five Sobeys
and five Loblaw phrases. -/
theorem c5_map_size_counterexample :
    C3_RESPONSE_MAP.length = 10 ∧ C3_RESPONSE_MAP.length ≠ 11 := by
  constructor
  · rfl
  · decide

/-- Claim C5 (amended): the Response Code Mapper is a fixed lookup with
exactly 10 entries; it is case-insensitive and trim-insensitive
("Reservation Approval" with surrounding spaces maps to "Approved");
absent input and every unmapped input (both the normalized key and its
double-space-collapsed variant miss) yield an absent result — the
function is total and never raises. -/
theorem c5_response_mapper :
    C3_RESPONSE_MAP.length = 10 ∧
    map_c3_response_to_column_label (some "  Reservation Approval  ") = some "Approved" ∧
    map_c3_response_to_column_label none = none ∧
    (∀ r : String,
      mapGet C3_RESPONSE_MAP (ofChars (lowerCL (trimCL r.data))) = none →
      mapGet C3_RESPONSE_MAP
        (ofChars (replAll "  ".data " ".data (lowerCL (trimCL r.data)))) = none →
      map_c3_response_to_column_label (some r) = none) := by
  refine ⟨rfl, by decide, rfl, ?_⟩
  intro r h1 h2
  rw [map_c3_response_to_column_label]
  by_cases hr : r = ""
  · rw [if_pos hr]
  · rw [if_neg hr]
    dsimp only
    by_cases hk : ofChars (lowerCL (trimCL r.data)) = ""
    · rw [if_pos hk]
    · rw [if_neg hk, h1]
      exact h2

theorem c5_response_mapper_witness :
    map_c3_response_to_column_label (some "unknown phrase") = none :=
  c5_response_mapper.2.2.2 "unknown phrase" (by decide) (by decide)

/-- Claim C9: invoked with neither `item_id` nor a non-empty `item_ids`,
`extract_c3_po_numbers` produces the structured error result — the
error message plus the capability name — and no fetch: in the source
this `return` (src/main.py:785-788) precedes token resolution and every
data-source call, which the `PoStart` model captures by the result
being the `err` outcome rather than a `fetch`. -/
theorem c9_missing_ids_error :
    ∀ item_ids : Option (List Int), item_ids = none ∨ item_ids = some [] →
      extract_c3_po_numbers_start none item_ids =
        PoStart.err "Either item_id or item_ids is required" "extract_c3_po_numbers" := by
  intro iids h
  rcases h with h | h
  · subst h; rfl
  · subst h; rfl

theorem c9_missing_ids_error_witness :
    extract_c3_po_numbers_start none none =
      PoStart.err "Either item_id or item_ids is required" "extract_c3_po_numbers" :=
  c9_missing_ids_error none (Or.inl rfl)

/-- Claim C8: per-body PO extraction first trims the input and returns
empty when the trimmed body is empty; otherwise it returns exactly the
HTML extraction result when that is nonempty, and exactly the Markdown
extraction result when HTML extraction yields nothing — the two
strategies are never combined. -/
theorem c8_body_extraction_strategy :
    (∀ b : String, trimCL b.data = [] →
      extract_po_numbers_from_update_body b = []) ∧
    (∀ b : String, extractHtmlPoCL (trimCL b.data) ≠ [] →
      extract_po_numbers_from_update_body b =
        (extractHtmlPoCL (trimCL b.data)).map ofChars) ∧
    (∀ b : String, trimCL b.data ≠ [] → extractHtmlPoCL (trimCL b.data) = [] →
      extract_po_numbers_from_update_body b =
        (mdScan (mdLinesOf (trimCL b.data))).map ofChars) := by
  refine ⟨?_, ?_, ?_⟩
  · intro b he
    unfold extract_po_numbers_from_update_body extractBodyPoCL
    dsimp only
    rw [he]
    rfl
  · intro b hh
    unfold extract_po_numbers_from_update_body extractBodyPoCL
    dsimp only
    have hne : (trimCL b.data).isEmpty = false := by
      cases htr : trimCL b.data
      · exact absurd (by rw [htr]; rfl) hh
      · rfl
    rw [hne]
    simp only [Bool.false_eq_true, if_false]
    have hpos : (extractHtmlPoCL (trimCL b.data)).isEmpty = false := by
      cases hp : extractHtmlPoCL (trimCL b.data)
      · exact absurd hp hh
      · rfl
    rw [hpos]
    simp only [Bool.false_eq_true, if_false]
  · intro b htr hh
    unfold extract_po_numbers_from_update_body extractBodyPoCL
    dsimp only
    have hne : (trimCL b.data).isEmpty = false := by
      cases ht : trimCL b.data
      · exact absurd ht htr
      · rfl
    rw [hne]
    simp only [Bool.false_eq_true, if_false]
    rw [hh]
    rfl

theorem c8_body_extraction_strategy_witness :
    extract_po_numbers_from_update_body "   " = [] ∧
    extract_po_numbers_from_update_body
      "<table><tr><th>purchase order</th></tr><tr><td>5</td></tr></table>" =
      (extractHtmlPoCL (trimCL "<table><tr><th>purchase order</th></tr><tr><td>5</td></tr></table>".data)).map ofChars ∧
    extract_po_numbers_from_update_body "| purchase order |\n| 7 |" =
      (mdScan (mdLinesOf (trimCL "| purchase order |\n| 7 |".data))).map ofChars :=
  ⟨c8_body_extraction_strategy.1 "   " (by decide),
   c8_body_extraction_strategy.2.1
     "<table><tr><th>purchase order</th></tr><tr><td>5</td></tr></table>" (by decide),
   c8_body_extraction_strategy.2.2 "| purchase order |\n| 7 |" (by decide) (by decide)⟩

/-- Claim C4: the DateTime Normalizer maps "2026/01/14 2:50" to
(date "2026-01-14", time "02:50:00") and "16/01/2026 14:30 MST" to
(date "2026-01-16", time "14:30:00"); every input matching neither the
YYYY/MM/DD nor the DD/MM/YYYY pattern yields the empty result; and on
every success the time is `HH:MM:SS` — 8 characters, i.e. the hour is
always rendered as two digits and missing seconds default to "00". -/
theorem c4_datetime_normalizer :
    parse_appointment_datetime_for_monday "2026/01/14 2:50" =
      some ("2026-01-14", "02:50:00") ∧
    parse_appointment_datetime_for_monday "16/01/2026 14:30 MST" =
      some ("2026-01-16", "14:30:00") ∧
    (∀ v : String, ymdAt (trimCL v.data) = none → dmyAt (trimCL v.data) = none →
      parse_appointment_datetime_for_monday v = none) ∧
    (∀ v d t : String, parse_appointment_datetime_for_monday v = some (d, t) →
      t.length = 8) := by
  refine ⟨by decide, by decide, ?_, ?_⟩
  · intro v h1 h2
    unfold parse_appointment_datetime_for_monday
    split
    · rfl
    · dsimp only
      rw [h1, h2]
  · intro v d t h
    exact parse_dt_time_len h

theorem c4_datetime_normalizer_witness :
    parse_appointment_datetime_for_monday "not a date" = none ∧
    ("02:50:00" : String).length = 8 :=
  ⟨c4_datetime_normalizer.2.2.1 "not a date" (by rfl) (by rfl),
   c4_datetime_normalizer.2.2.2 "2026/01/14 2:50" "2026-01-14" "02:50:00" (by decide)⟩

/-- Claim C2: on a text with two tables whose headers both match, the
Markdown extractor emits values only from the first table (scanning its
data block stops at the first non-`|` line, and nothing after that line
is ever visited — the fourth conjunct states this stop for arbitrary
data blocks), while the second table alone would contribute its own
values; the HTML extractor instead emits the values of all matching
tables concatenated in document order. -/
theorem c2_first_table_only :
    extract_po_column_from_markdown_table
      "| Purchase Order Number |\n| --- |\n| 111 |\n\n| Purchase Order Number |\n| --- |\n| 222 |" = ["111"] ∧
    extract_po_column_from_markdown_table
      "| Purchase Order Number |\n| --- |\n| 222 |" = ["222"] ∧
    extract_po_column_from_html_table
      "<table><tr><th>Purchase Order Number</th></tr><tr><td>111</td></tr></table><table><tr><th>Purchase Order Number</th></tr><tr><td>222</td></tr></table>" =
      ["111", "222"] ∧
    (∀ (j : Nat) (ls₁ ls₂ : List Chars) (b : Chars),
      (∀ l ∈ ls₁, isPre BAR (trimCL l) = true) → isPre BAR (trimCL b) = false →
      mdCollect j (ls₁ ++ b :: ls₂) = mdCollect j ls₁) := by
  refine ⟨by decide, by decide, by decide, ?_⟩
  intro j ls₁ ls₂ b h1 hb
  induction ls₁ with
  | nil =>
    rw [List.nil_append, mdCollect, mdCollect]
    rw [hb]
    rfl
  | cons l rest ih =>
    have hl := h1 l (List.mem_cons_self l rest)
    have hrest : ∀ x ∈ rest, isPre BAR (trimCL x) = true :=
      fun x hx => h1 x (List.mem_cons_of_mem _ hx)
    rw [List.cons_append, mdCollect, mdCollect, hl]
    dsimp only
    rw [ih hrest]

theorem c2_first_table_only_witness :
    mdCollect 0 (["| 1 |".data] ++ "".data :: ["| 2 |".data]) =
      mdCollect 0 ["| 1 |".data] :=
  c2_first_table_only.2.2.2 0 ["| 1 |".data] ["| 2 |".data] "".data
    (by decide) (by decide)

/-- Claim C10: for a Vendor B (non-Sobeys) work item the extracted
record — in particular the body-derived appointment number, date/time,
consignee and merged PO list — depends only on the first two updates
(it equals the extraction over `updates.take 2`), and the body used is
the first update's stripped body, or the second's when the first strips
to empty; updates beyond the second are never consulted, even when the
first two bodies are both empty. -/
theorem c10_loblaw_first_two_updates :
    (∀ (name : String) (updates : List String),
      isSobeysName (trimString name) = false →
      extractRow name updates = extractRow name (updates.take 2)) ∧
    (∀ (u0 u1 : String) (rest : List String),
      selectBody (u0 :: u1 :: rest) =
        if trimString u0 ≠ "" then trimString u0 else trimString u1) := by
  constructor
  · intro name updates hns
    have hsel : selectBody updates = selectBody (updates.take 2) := by
      rcases updates with _ | ⟨u0, _ | ⟨u1, rest⟩⟩
      · rfl
      · rfl
      · rfl
    unfold extractRow
    dsimp only
    rw [if_neg (by simp [hns]), if_neg (by simp [hns]), hsel]
  · intro u0 u1 rest
    rfl

theorem c10_loblaw_first_two_updates_witness :
    extractRow "Conf - from Loblaw" ["", "", "| Purchase Order Number |\n| 9 |"] =
      extractRow "Conf - from Loblaw"
        ((["", "", "| Purchase Order Number |\n| 9 |"] : List String).take 2) :=
  c10_loblaw_first_two_updates.1 "Conf - from Loblaw" _ (by decide)

/-- Claim C7: the Vendor A subject
"Sobeys - Reservation Approval: 46578951 on 2026/01/14 02:50 CST for Winnipeg RSC08"
parses to client "Sobeys", c3_response "Reservation Approval",
appointment number "46578951", date/time "2026/01/14 02:50 CST" and
consignee "Winnipeg RSC08"; every subject the Sobeys pattern does not
match leaves all fields absent; and on a match every captured field is
trimmed (PO numbers are never produced by the subject parser — the
record it returns has no PO field at all). -/
theorem c7_sobeys_subject :
    parse_sobeys_subject
      "Sobeys - Reservation Approval: 46578951 on 2026/01/14 02:50 CST for Winnipeg RSC08" =
      { appointment_number := some "46578951", client := some "Sobeys",
        consignee := some "Winnipeg RSC08",
        appointment_date_time := some "2026/01/14 02:50 CST",
        c3_response := some "Reservation Approval" } ∧
    (∀ subject : String, reMatch SOBEYS_SUBJECT_RE (trimCL subject.data) = none →
      parse_sobeys_subject subject = ParsedSubject.empty) ∧
    (∀ subject v : String,
      ((parse_sobeys_subject subject).client = some v → trimString v = v) ∧
      ((parse_sobeys_subject subject).c3_response = some v → trimString v = v) ∧
      ((parse_sobeys_subject subject).appointment_number = some v → trimString v = v) ∧
      ((parse_sobeys_subject subject).appointment_date_time = some v → trimString v = v) ∧
      ((parse_sobeys_subject subject).consignee = some v → trimString v = v)) := by
  refine ⟨by decide, ?_, ?_⟩
  · intro subject hm
    unfold parse_sobeys_subject
    dsimp only
    rw [hm]
  · intro subject v
    unfold parse_sobeys_subject
    dsimp only
    cases hm : reMatch SOBEYS_SUBJECT_RE (trimCL subject.data) with
    | none =>
      refine ⟨?_, ?_, ?_, ?_, ?_⟩ <;> intro habs <;> simp [ParsedSubject.empty] at habs
    | some cp =>
      exact ⟨fun h => trimmedField h, fun h => trimmedField h, fun h => trimmedField h,
        fun h => trimmedField h, fun h => trimmedField h⟩

theorem c7_sobeys_subject_witness :
    parse_sobeys_subject "no dashes here" = ParsedSubject.empty ∧
      trimString "Sobeys" = "Sobeys" :=
  ⟨c7_sobeys_subject.2.1 "no dashes here" (by rfl),
   (c7_sobeys_subject.2.2
     "Sobeys - Reservation Approval: 46578951 on 2026/01/14 02:50 CST for Winnipeg RSC08"
     "Sobeys").1 (by rfl)⟩

/-- Claim C1 (counterexample): a Vendor B item with two updates, each
carrying a matching table.  The code collects table POs only from the
selected (first nonempty) body, giving ["111"], while the claimed
aggregation over every RawUpdate body gives ["111", "222"]. -/
theorem c1_every_update_counterexample :
    (extractRow "Conf - from Loblaw"
      ["| Purchase Order Number |\n| 111 |", "| Purchase Order Number |\n| 222 |"]).po_numbers =
      ["111"] ∧
    specPoAggregate "Conf - from Loblaw"
      ["| Purchase Order Number |\n| 111 |", "| Purchase Order Number |\n| 222 |"] =
      ["111", "222"] ∧
    (["111"] : List String) ≠ ["111", "222"] := by
  refine ⟨by decide, by decide, by decide⟩

/-- Claim C1 (amended): for every work item the final po_numbers equal
the first-seen-order dedup (by exact string equality) of: for Vendor A,
the table-extraction results of every update body in update order; for
Vendor B, the inline key-value PO list followed by the table-extraction
results of the selected body only (the first update's body, or the
second's when the first is trim-empty). -/
theorem c1_po_aggregation_amended :
    ∀ (name : String) (updates : List String),
      (extractRow name updates).po_numbers = specPoAggregateAmended name updates := by
  intro name updates
  unfold extractRow specPoAggregateAmended
  dsimp only
  by_cases hs : isSobeysName (trimString name) = true
  · rw [if_pos hs, if_pos hs]
    dsimp only
    rw [poFromUpdates_eq]
  · rw [if_neg hs, if_neg hs]
    dsimp only
    unfold merge_loblaw_po_from_table
    apply dedupeStrip_eq_dedupe
    intro p hp
    rcases List.mem_append.mp hp with hp | hp
    · have hd : isDigitsS p = true := by
        cases hpo : (parse_loblaw_body (selectBody updates)).po_numbers with
        | none => rw [hpo] at hp; simp at hp
        | some l =>
          rw [hpo] at hp
          simp only [Option.getD_some] at hp
          exact parse_loblaw_body_po_digits hpo p hp
      exact trimString_of_digits hd
    · exact trimString_of_digits (extract_po_numbers_from_update_body_digits p hp)

/-- Claim C6: every element of the final po_numbers list — in the
appointment-details row for either vendor and in
`extract_c3_po_numbers`' per-item extraction — is a nonempty all-digit
string (`^\d+$`), and the list holds no duplicate strings; any table
cell or inline segment failing the digit pattern never reaches it. -/
theorem c6_po_numbers_invariant :
    (∀ (name : String) (updates : List String) (p : String),
      p ∈ (extractRow name updates).po_numbers → isDigitsS p = true) ∧
    (∀ (name : String) (updates : List String),
      (extractRow name updates).po_numbers.Nodup) ∧
    (∀ (updates : List String) (p : String),
      p ∈ (extract_po_numbers_for_item updates).1 → isDigitsS p = true) ∧
    (∀ updates : List String, (extract_po_numbers_for_item updates).1.Nodup) := by
  refine ⟨?_, ?_, ?_, ?_⟩
  · intro name updates p hp
    unfold extractRow at hp
    dsimp only at hp
    by_cases hs : isSobeysName (trimString name) = true
    · rw [if_pos hs] at hp
      dsimp only at hp
      exact poFromUpdates_digits p (mem_dedupe hp)
    · rw [if_neg hs] at hp
      dsimp only at hp
      refine merge_loblaw_digits ?_ p hp
      intro l hl
      exact parse_loblaw_body_po_digits hl
  · intro name updates
    unfold extractRow
    dsimp only
    by_cases hs : isSobeysName (trimString name) = true
    · rw [if_pos hs]
      exact dedupe_nodup _
    · rw [if_neg hs]
      exact dedupeStrip_nodup _
  · intro updates p hp
    unfold extract_po_numbers_for_item at hp
    dsimp only at hp
    exact poFromUpdates_digits p (mem_dedupe hp)
  · intro updates
    unfold extract_po_numbers_for_item
    exact dedupe_nodup _

theorem c6_po_numbers_invariant_witness :
    isDigitsS "111" = true ∧ isDigitsS "7" = true :=
  ⟨c6_po_numbers_invariant.1 "Conf - from Loblaw"
      ["| Purchase Order Number |\n| 111 |"] "111" (by decide),
   c6_po_numbers_invariant.2.2.1 ["| purchase order |\n| 7 |"] "7" (by decide)⟩

end MondayC3
